import Mathlib

/-!
Verification development for the exportmapify inference core.

The TypeScript sources are shallowly embedded as total Lean functions.
Paths are plain strings relative to the package directory; the file
system is a finite list of file entries.  JavaScript object key order
is modelled by association lists in insertion order, and JavaScript
truthiness of the relevant value types is modelled explicitly.  String
operations are defined over character lists so that every definition
evaluates inside the kernel.
-/

set_option maxRecDepth 10000

/-! ## Generic string and association-list helpers -/

/-- Lookup in an association list by key, mirroring JavaScript property
access on objects built in insertion order. -/
def lookupKey {α : Type} : List (String × α) → String → Option α
  | [], _ => none
  | (k', v) :: t, k => if k' = k then some v else lookupKey t k

/-- Update a key in place if present, otherwise append, mirroring
JavaScript property assignment on an object. -/
def setKey {α : Type} : List (String × α) → String → α → List (String × α)
  | [], k, v => [(k, v)]
  | (k', v') :: t, k, v => if k' = k then (k, v) :: t else (k', v') :: setKey t k v

/-- Check that one character list starts with another. -/
def startsWithL : List Char → List Char → Bool
  | _, [] => true
  | [], _ :: _ => false
  | c :: cs, d :: ds => c = d && startsWithL cs ds

/-- Model of the JavaScript String.startsWith method. -/
def sStartsWith (s pre : String) : Bool := startsWithL s.toList pre.toList

/-- Model of the JavaScript String.endsWith method. -/
def sEndsWith (s suf : String) : Bool := startsWithL s.toList.reverse suf.toList.reverse

/-- Character count of a string; every path in this development is
ASCII, so character positions coincide with the JavaScript indices. -/
def sLength (s : String) : Nat := s.toList.length

/-- Model of the JavaScript slice from a start index to the end. -/
def sDrop (s : String) (n : Nat) : String := String.mk (s.toList.drop n)

/-- Model of the JavaScript slice from the start to an end index. -/
def sTake (s : String) (n : Nat) : String := String.mk (s.toList.take n)

/-- Drop a suffix of the given length. -/
def sDropRight (s : String) (n : Nat) : String :=
  String.mk (s.toList.take (s.toList.length - n))

/-- Emptiness test, the JavaScript falsiness of a string. -/
def sIsEmpty (s : String) : Bool := s.toList.isEmpty

/-- Model of the JavaScript toLowerCase on the ASCII strings used by
the identifier heuristics. -/
def sToLower (s : String) : String := String.mk (s.toList.map Char.toLower)

/-- Split a character list on the path separator. -/
def splitSlashAux : List Char → List Char → List (List Char)
  | acc, [] => [acc.reverse]
  | acc, c :: t =>
    if c = '/' then acc.reverse :: splitSlashAux [] t else splitSlashAux (c :: acc) t

/-- Model of the JavaScript split on the path separator. -/
def sSplitSlash (s : String) : List String := (splitSlashAux [] s.toList).map String.mk

/-- Model of the JavaScript join with the path separator. -/
def sJoinSlash : List String → String
  | [] => ""
  | [x] => x
  | x :: y :: t => x ++ "/" ++ sJoinSlash (y :: t)

/-- Check that one character list contains a pattern, as in the
JavaScript String.includes method. -/
def containsSubL (pat : List Char) : List Char → Bool
  | [] => startsWithL [] pat
  | c :: t => startsWithL (c :: t) pat || containsSubL pat t

/-- Replace the first occurrence of a pattern, returning none when the
pattern does not occur. -/
def replaceFirstL (pat rep : List Char) : List Char → Option (List Char)
  | [] => if startsWithL [] pat then some rep else none
  | c :: t =>
    if startsWithL (c :: t) pat then some (rep ++ (c :: t).drop pat.length)
    else (replaceFirstL pat rep t).map (fun r => c :: r)

/-- Model of the JavaScript String.includes method. -/
def jsIncludes (s pat : String) : Bool := containsSubL pat.toList s.toList

/-- Model of the one-occurrence JavaScript String.replace with a plain
string pattern: replaces the first occurrence only. -/
def jsReplaceFirst (s pat rep : String) : String :=
  match replaceFirstL pat.toList rep.toList s.toList with
  | some r => String.mk r
  | none => s

/-- Index of the last occurrence of a character in a string. -/
def lastIdxOf (s : String) (ch : Char) : Option Nat :=
  ((s.toList.enum.filter (fun p => p.2 = ch)).map (fun p => p.1)).getLast?

/-- Strip a leading "./" as done throughout the sources. -/
def stripDotSlash (p : String) : String :=
  if sStartsWith p "./" then sDrop p 2 else p

/-! ## PathNormalizer (src/utils/normalizeRelativePath.ts) -/

/-- Model of normalizeRelativePath: prepends "./" unless present. -/
def normalizeRelativePath (path : String) : String :=
  if sStartsWith path "./" then path else "./" ++ path

/-! ## File system model -/

/-- Model of one file on disk: its path relative to the package
directory and its content, where none models an unreadable file. -/
structure FileEntry where
  path : String
  content : Option String
deriving DecidableEq, Repr

/-- Model of the package directory tree as a finite list of files.
Directories exist implicitly as proper prefixes of file paths. -/
structure FS where
  files : List FileEntry
deriving DecidableEq, Repr

/-- Model of statSync(p).isFile(): the path is one of the files. -/
def isFileF (fs : FS) (p : String) : Bool :=
  fs.files.any (fun e => e.path = p)

/-- Model of existsSync: a file at the path, or a directory, i.e. some
file lives strictly below the path. -/
def existsF (fs : FS) (p : String) : Bool :=
  fs.files.any (fun e => e.path = p || sStartsWith e.path (p ++ "/"))

/-- Model of reading a file: none when the file is absent or the read
throws; both are caught and treated alike by every caller. -/
def readF (fs : FS) (p : String) : Option String :=
  match fs.files.find? (fun e => e.path = p) with
  | some e => e.content
  | none => none

/-! ## SourceFileInferencer (src/utils/findSourceFile.ts)

The implementation file appears in the repository dump with async
signatures, while its tests and the callers in generateBaselineExports
use it synchronously; the logic is identical, so it is embedded here as
a plain function. -/

/-- Source extensions tried in order, from SOURCE_EXTENSIONS. -/
def sourceExtensions : List String := [".ts", ".tsx", ".jsx", ".js"]

/-- Model of tryFindSourceFile: probe the base path with each source
extension, then index files inside a directory of that name. -/
def tryFindSourceFile (fs : FS) (basePath : String) : Option String :=
  match sourceExtensions.find? (fun ext => existsF fs (basePath ++ ext)) with
  | some ext => some (normalizeRelativePath (basePath ++ ext))
  | none =>
    match sourceExtensions.find? (fun ext => existsF fs (basePath ++ "/index" ++ ext)) with
    | some ext => some (normalizeRelativePath (basePath ++ "/index" ++ ext))
    | none => none

/-- SOURCE_MAPPINGS from findSourceFile.ts. -/
def sourceMappings : List (String × String) :=
  [("/lib/", "/src/"), ("/dist/", "/src/"), ("/build/", "/source/"), ("/out/", "/src/")]

/-- Strip a leading build directory, the first replace in the direct
source-directory branch of findSourceFile. -/
def stripLeadingBuildDir (s : String) : String :=
  if sStartsWith s "lib/" then sDrop s 4
  else if sStartsWith s "dist/" then sDrop s 5
  else if sStartsWith s "build/" then sDrop s 6
  else if sStartsWith s "out/" then sDrop s 4
  else s

/-- Strip a compiled-output extension, the second replace in the direct
source-directory branch of findSourceFile: the regex alternatives
js, mjs, cjs and d.ts anchored at the end. -/
def stripOutputExt (s : String) : String :=
  if sEndsWith s ".d.ts" then sDropRight s 5
  else if sEndsWith s ".mjs" then sDropRight s 4
  else if sEndsWith s ".cjs" then sDropRight s 4
  else if sEndsWith s ".js" then sDropRight s 3
  else s

/-- Model of findSourceFile: build-directory token substitution first,
then the canonical source directories. -/
def findSourceFile (fs : FS) (targetPath : String) : Option String :=
  let cleanPath := stripDotSlash targetPath
  let viaMappings :=
    sourceMappings.foldl
      (fun acc m =>
        match acc with
        | some r => some r
        | none =>
          if jsIncludes cleanPath m.1 then
            tryFindSourceFile fs (jsReplaceFirst cleanPath m.1 m.2)
          else none)
      none
  match viaMappings with
  | some r => some r
  | none =>
    let baseName := stripOutputExt (stripLeadingBuildDir cleanPath)
    match tryFindSourceFile fs ("src/" ++ baseName) with
    | some r => some r
    | none => tryFindSourceFile fs ("source/" ++ baseName)

/-! ## ModuleTypeDetector (detectModuleType.ts) -/

inductive ModuleType where
  | esm
  | cjs
  | unknown
deriving DecidableEq, Repr

/-- Word character of the JavaScript regex class for word boundaries. -/
def wordC (c : Char) : Bool := c.isAlphanum || c = '_'

/-- Whitespace characters matched by the regex class for spaces. -/
def wsC (c : Char) : Bool :=
  c = ' ' || c = '\t' || c = '\n' || c = '\r' || c = '\x0b' || c = '\x0c'

/-- After a keyword, skip optional whitespace and require an opening
parenthesis, for the dynamic call patterns. -/
def wsStarThenParen : List Char → Bool
  | [] => false
  | c :: t => if wsC c then wsStarThenParen t else c = '('

/-- After a pattern, skip optional whitespace and require a given
character. -/
def wsStarThen (target : Char) : List Char → Bool
  | [] => false
  | c :: t => if wsC c then wsStarThen target t else c = target

/-- Keyword followed by one whitespace character. -/
def kwThenWs (kw : String) (l : List Char) : Bool :=
  startsWithL l kw.toList &&
    (match l.drop kw.toList.length with
     | d :: _ => wsC d
     | [] => false)

/-- Keyword followed by optional whitespace and a parenthesis. -/
def kwThenParen (kw : String) (l : List Char) : Bool :=
  startsWithL l kw.toList && wsStarThenParen (l.drop kw.toList.length)

/-- Scan for the ESM content patterns: a word boundary before the
keywords import or export followed by whitespace, or a dynamic use of
the first keyword followed by a parenthesis. -/
def esmScan : Option Char → List Char → Bool
  | _, [] => false
  | prev, c :: rest =>
    let bnd := match prev with
      | none => true
      | some p => !wordC p
    (bnd && (kwThenWs "import" (c :: rest) || kwThenWs "export" (c :: rest)
              || kwThenParen "import" (c :: rest)))
      || esmScan (some c) rest

/-- Scan for the CommonJS content patterns: a bounded require call,
a module.exports assignment, or an exports member access. -/
def cjsScan : Option Char → List Char → Bool
  | _, [] => false
  | prev, c :: rest =>
    let bnd := match prev with
      | none => true
      | some p => !wordC p
    (bnd && kwThenParen "require" (c :: rest))
      || (startsWithL (c :: rest) "module.exports".toList
            && wsStarThen '=' ((c :: rest).drop "module.exports".toList.length))
      || (startsWithL (c :: rest) "exports".toList
            && wsStarThen '.' ((c :: rest).drop "exports".toList.length))
      || cjsScan (some c) rest

/-- ESM pattern test of the content sniff. -/
def hasEsmSyntax (content : String) : Bool := esmScan none content.toList

/-- CommonJS pattern test of the content sniff. -/
def hasCjsSyntax (content : String) : Bool := cjsScan none content.toList

/-- Model of the Node extname function on the last path component: the
extension runs from the last dot, except when that dot is the first
character of the component or the component is the double dot. -/
def jsExtname (p : String) : String :=
  let b := (sSplitSlash p).getLastD ""
  match lastIdxOf b '.' with
  | none => ""
  | some 0 => ""
  | some i => if b = ".." then "" else sDrop b i

/-- Model of detectModuleType.  The type field models the parsed
package.json of the package directory; none covers a missing file,
an unparseable file and an absent field, all caught alike. -/
def detectModuleType (filePath : String) (pkgTypeField : Option String) (fs : FS) :
    ModuleType :=
  let ext := jsExtname filePath
  if ext = ".mjs" then ModuleType.esm
  else if ext = ".cjs" then ModuleType.cjs
  else if pkgTypeField = some "module" then ModuleType.esm
  else if pkgTypeField = some "commonjs" then ModuleType.cjs
  else
    match readF fs (stripDotSlash filePath) with
    | some content =>
      if hasEsmSyntax content then ModuleType.esm
      else if hasCjsSyntax content then ModuleType.cjs
      else ModuleType.unknown
    | none => ModuleType.unknown

/-! ## BrowserFieldParser (src/utils/parseBrowserField.ts) -/

/-- Value of one object-form browser field entry: a path string or the
literal false used as a block marker. -/
inductive BVal where
  | s (v : String)
  | fls
deriving DecidableEq, Repr

/-- Browser field of a package.json: string form or object form with
entries in insertion order. -/
inductive BrowserField where
  | str (v : String)
  | obj (entries : List (String × BVal))
deriving DecidableEq, Repr

structure BrowserFieldResult where
  rootBrowser : Option String
  browserMappings : List (String × BVal)
deriving DecidableEq, Repr

/-- Normalize a browser mapping value, keeping false as a marker. -/
def normBVal : BVal → BVal
  | BVal.s v => BVal.s (normalizeRelativePath v)
  | BVal.fls => BVal.fls

/-- Truthy optional string field, as tested before normalizing the
main and module fields. -/
def optNorm : Option String → Option String
  | some s => if sIsEmpty s then none else some (normalizeRelativePath s)
  | none => none

/-- One step of the object-form browser field loop. -/
def browserStep (nMain nModule : Option String)
    (st : Option String × List (String × BVal)) (kv : String × BVal) :
    Option String × List (String × BVal) :=
  if nMain = some (normalizeRelativePath kv.1) then
    match kv.2 with
    | BVal.s v => (some (normalizeRelativePath v), st.2)
    | BVal.fls => st
  else if nModule = some (normalizeRelativePath kv.1) then
    match kv.2, st.1 with
    | BVal.s v, none => (some (normalizeRelativePath v), st.2)
    | _, some r => (some r, setKey st.2 (normalizeRelativePath kv.1) (normBVal kv.2))
    | BVal.fls, none => st
  else
    (st.1, setKey st.2 (normalizeRelativePath kv.1) (normBVal kv.2))

/-- Model of parseBrowserField with the optional main and module
fields. -/
def parseBrowserField (browserField : BrowserField)
    (mainField moduleField : Option String) : BrowserFieldResult :=
  match browserField with
  | BrowserField.str v => ⟨some (normalizeRelativePath v), []⟩
  | BrowserField.obj entries =>
    let nMain := optNorm mainField
    let nModule := optNorm moduleField
    let st := entries.foldl (browserStep nMain nModule) (none, [])
    ⟨st.1, st.2⟩

/-! ## BuildPatternDetector (detectBuildPattern.ts) -/

inductive PatternType where
  | directory
  | extension
  | pfx
  | nonePat
deriving DecidableEq, Repr

structure PathPattern where
  basePath : String
  identifier : String
deriving DecidableEq, Repr

structure BuildPattern where
  hasMultipleBuilds : Bool
  cjsPattern : Option PathPattern := none
  esmPattern : Option PathPattern := none
  patternType : PatternType
deriving DecidableEq, Repr

/-- Result used whenever no pattern is detected. -/
def noneBP : BuildPattern := ⟨false, none, none, PatternType.nonePat⟩

/-- Detected dual-build result with the given pattern type, CJS side
and ESM side. -/
def mkBP (pt : PatternType) (cjsBase cjsId esmBase esmId : String) : BuildPattern :=
  { hasMultipleBuilds := true, patternType := pt,
    cjsPattern := some ⟨cjsBase, cjsId⟩, esmPattern := some ⟨esmBase, esmId⟩ }

/-- CJS identifier heuristic, the case-insensitive token set. -/
def isCjsIdentifier (s : String) : Bool :=
  sToLower s == "cjs" || sToLower s == "commonjs" || sToLower s == "common"
    || sToLower s == "node"

/-- ESM identifier heuristic, the case-insensitive token set. -/
def isEsmIdentifier (s : String) : Bool :=
  sToLower s == "esm" || sToLower s == "es" || sToLower s == "module"
    || sToLower s == "modules" || sToLower s == "import"

/-- CJS extension heuristic; the plain js extension is ambiguous and
accepted on either side. -/
def isCjsExtension (ext : String) : Bool := ext == ".cjs" || ext == ".js"

/-- ESM extension heuristic; the plain js extension is ambiguous and
accepted on either side. -/
def isEsmExtension (ext : String) : Bool := ext == ".mjs" || ext == ".js"

/-- Model of getFileExtension: from the last dot to the end, empty when
there is no dot. -/
def getFileExtension (path : String) : String :=
  match lastIdxOf path '.' with
  | none => ""
  | some i => sDrop path i

/-- Model of the slice up to the last dot used by the extension
classifier; with no dot the slice end of minus one drops the last
character, matching the JavaScript slice semantics. -/
def sliceBeforeLastDot (s : String) : String :=
  match lastIdxOf s '.' with
  | none => sTake s (sLength s - 1)
  | some i => sTake s i

/-- Base name with the last extension removed, from the filename
compatibility check. -/
def stripLastExt (f : String) : String :=
  match lastIdxOf f '.' with
  | none => f
  | some i => sTake f i

/-- Model of areFilenamesCompatible. -/
def areFilenamesCompatible (f1 f2 : String) : Bool :=
  f1 == f2 || stripLastExt f1 == stripLastExt f2

/-- Indexed list of differing directory segments, mirroring the loop
that finds the single differing index. -/
def diffPairsAux : Nat → List String → List String → List (Nat × String × String)
  | _, [], _ => []
  | _, _ :: _, [] => []
  | i, a :: as, b :: bs =>
    (if a = b then [] else [(i, a, b)]) ++ diffPairsAux (i + 1) as bs

/-- Branch shared by the directory and prefix classifiers: test the
candidate identifier pair against the CJS and ESM heuristics in either
order, recording basePath and identifier from the matching sides. -/
def idPairBranch (pt : PatternType) (mainBase moduleBase mainId moduleId : String) :
    BuildPattern :=
  if isCjsIdentifier mainId && isEsmIdentifier moduleId then
    mkBP pt mainBase mainId moduleBase moduleId
  else if isCjsIdentifier moduleId && isEsmIdentifier mainId then
    mkBP pt moduleBase moduleId mainBase mainId
  else noneBP

/-- Model of detectDirectoryPattern over the split path segments. -/
def detectDirectoryParts (mainParts moduleParts : List String) : BuildPattern :=
  if mainParts.length = moduleParts.length then
    if areFilenamesCompatible (mainParts.getLastD "") (moduleParts.getLastD "") then
      match diffPairsAux 0 mainParts.dropLast moduleParts.dropLast with
      | [(i, mainDir, moduleDir)] =>
        idPairBranch PatternType.directory (sJoinSlash (mainParts.take i))
          (sJoinSlash (moduleParts.take i)) mainDir moduleDir
      | _ => noneBP
    else noneBP
  else noneBP

/-- Model of detectDirectoryPattern. -/
def detectDirectoryPattern (mainPath modulePath : String) : BuildPattern :=
  detectDirectoryParts (sSplitSlash mainPath) (sSplitSlash modulePath)

/-- Branch of the extension classifier: test the extension pair
against the CJS and ESM extension heuristics in either order. -/
def extPairBranch (mainBase moduleBase mainExt moduleExt : String) : BuildPattern :=
  if isCjsExtension mainExt && isEsmExtension moduleExt then
    mkBP PatternType.extension mainBase mainExt moduleBase moduleExt
  else if isCjsExtension moduleExt && isEsmExtension mainExt then
    mkBP PatternType.extension moduleBase moduleExt mainBase mainExt
  else noneBP

/-- Model of detectExtensionPattern. -/
def detectExtensionPattern (mainPath modulePath : String) : BuildPattern :=
  if sliceBeforeLastDot mainPath = sliceBeforeLastDot modulePath then
    extPairBranch (sliceBeforeLastDot mainPath) (sliceBeforeLastDot modulePath)
      (getFileExtension mainPath) (getFileExtension modulePath)
  else noneBP

/-- Leading letter run of a filename, for the prefix classifier. -/
def letterRun (f : String) : List Char := f.toList.takeWhile Char.isAlpha

/-- Model of the anchored prefix extraction: a maximal run of letters
followed directly by a dot or dash separator. -/
def extractPfx (f : String) : Option String :=
  let run := letterRun f
  if run.isEmpty then none
  else
    match f.toList.drop run.length with
    | c :: _ => if c = '.' || c = '-' then some (String.mk run) else none
    | [] => none

/-- Model of detectPrefixPattern over the split path segments. -/
def detectPrefixParts (mainParts moduleParts : List String) : BuildPattern :=
  if mainParts.length = moduleParts.length then
    if mainParts.dropLast = moduleParts.dropLast then
      match extractPfx (mainParts.getLastD ""), extractPfx (moduleParts.getLastD "") with
      | some mainPfx, some modulePfx =>
        if sDrop (mainParts.getLastD "") (sLength mainPfx + 1)
            = sDrop (moduleParts.getLastD "") (sLength modulePfx + 1) then
          idPairBranch PatternType.pfx (sJoinSlash (mainParts.dropLast))
            (sJoinSlash (moduleParts.dropLast)) mainPfx modulePfx
        else noneBP
      | _, _ => noneBP
    else noneBP
  else noneBP

/-- Model of detectPrefixPattern. -/
def detectPrefixPattern (mainPath modulePath : String) : BuildPattern :=
  detectPrefixParts (sSplitSlash mainPath) (sSplitSlash modulePath)

/-- Model of detectBuildPattern with the truthiness checks on the two
optional fields and the three classifiers tried in order. -/
def detectBuildPattern (mainField moduleField : Option String) : BuildPattern :=
  match mainField, moduleField with
  | some m, some mo =>
    if sIsEmpty m || sIsEmpty mo then noneBP
    else if normalizeRelativePath m = normalizeRelativePath mo then noneBP
    else if (detectDirectoryPattern (normalizeRelativePath m)
        (normalizeRelativePath mo)).hasMultipleBuilds then
      detectDirectoryPattern (normalizeRelativePath m) (normalizeRelativePath mo)
    else if (detectExtensionPattern (normalizeRelativePath m)
        (normalizeRelativePath mo)).hasMultipleBuilds then
      detectExtensionPattern (normalizeRelativePath m) (normalizeRelativePath mo)
    else if (detectPrefixPattern (normalizeRelativePath m)
        (normalizeRelativePath mo)).hasMultipleBuilds then
      detectPrefixPattern (normalizeRelativePath m) (normalizeRelativePath mo)
    else noneBP
  | _, _ => noneBP

/-! ## Pattern-based expansion (src/core/exports/expandUsageWithPattern.ts) -/

/-- Extensions tried by the conditional-export probing. -/
def expandExtensions : List String := ["", ".js", ".mjs", ".cjs"]

/-- Model of the per-variant probing loop: each extension is tried on
the direct path and then on an index file under it, and the first
existing regular file wins. -/
def findValidVariant (fs : FS) (path : String) : Option String :=
  match expandExtensions.find?
      (fun ext => isFileF fs (path ++ ext) || isFileF fs (path ++ "/index" ++ ext)) with
  | some ext =>
    if isFileF fs (path ++ ext) then some ("./" ++ path ++ ext)
    else some ("./" ++ path ++ "/index" ++ ext)
  | none => none

/-- Replace a trailing js or mjs extension by the declaration
extension, as the regex with the optional m does; other endings are
left unchanged together with the whole path. -/
def replaceJsWithDts (s : String) : String :=
  if sEndsWith s ".mjs" then sDropRight s 4 ++ ".d.ts"
  else if sEndsWith s ".js" then sDropRight s 3 ++ ".d.ts"
  else s

/-- Default-path preference of generateConditionalExport: the
unmodified original match, then the ESM variant, then the CJS
variant. -/
def gceDefaultChoice (fs : FS) (cjsPath esmPath originalPath : String) : Option String :=
  ((findValidVariant fs originalPath).orElse
    (fun _ => findValidVariant fs esmPath)).orElse
    (fun _ => findValidVariant fs cjsPath)

/-- Source condition of generateConditionalExport, resolved against
the original path. -/
def gceSourcePart (fs : FS) (originalPath : String) : List (String × String) :=
  match findSourceFile fs ("./" ++ originalPath) with
  | some s => [("source", s)]
  | none => []

/-- Types condition of generateConditionalExport: the declaration file
next to the original path, else next to the preferred variant. -/
def gceTypesPart (fs : FS) (cjsPath esmPath originalPath : String) :
    List (String × String) :=
  if existsF fs (sDrop ("./" ++ replaceJsWithDts originalPath) 2) then
    [("types", "./" ++ replaceJsWithDts originalPath)]
  else
    match gceDefaultChoice fs cjsPath esmPath originalPath with
    | some p =>
      if existsF fs (sDrop (replaceJsWithDts p) 2) then [("types", replaceJsWithDts p)]
      else []
    | none => []

/-- Import condition of generateConditionalExport. -/
def gceImportPart (fs : FS) (esmPath : String) : List (String × String) :=
  match findValidVariant fs esmPath with
  | some p => [("import", p)]
  | none => []

/-- Require condition of generateConditionalExport. -/
def gceRequirePart (fs : FS) (cjsPath : String) : List (String × String) :=
  match findValidVariant fs cjsPath with
  | some p => [("require", p)]
  | none => []

/-- Default condition of generateConditionalExport. -/
def gceDefaultPart (fs : FS) (cjsPath esmPath originalPath : String) :
    List (String × String) :=
  match gceDefaultChoice fs cjsPath esmPath originalPath with
  | some p => [("default", p)]
  | none => []

/-- Entry assembled by generateConditionalExport, in the insertion
order of the source. -/
def gceEntry (fs : FS) (cjsPath esmPath originalPath : String) :
    List (String × String) :=
  gceSourcePart fs originalPath ++ gceTypesPart fs cjsPath esmPath originalPath
    ++ gceImportPart fs esmPath ++ gceRequirePart fs cjsPath
    ++ gceDefaultPart fs cjsPath esmPath originalPath

/-- Model of generateConditionalExport: probe the three candidate
variants, resolve source and types against the original path, and
build the entry with the default preferring original, then ESM, then
CJS. -/
def generateConditionalExport (fs : FS) (cjsPath esmPath originalPath : String) :
    Option (List (String × String)) :=
  if findValidVariant fs cjsPath = none && findValidVariant fs esmPath = none
      && findValidVariant fs originalPath = none then
    none
  else if (gceEntry fs cjsPath esmPath originalPath).isEmpty then none
  else some (gceEntry fs cjsPath esmPath originalPath)

/-- Model of expandDirectoryPattern. -/
def expandDirectoryPattern (fs : FS) (cleanPath : String) (pattern : BuildPattern) :
    Option (List (String × String)) :=
  match pattern.cjsPattern, pattern.esmPattern with
  | some cjsP, some esmP =>
    let cjsBasePath := stripDotSlash cjsP.basePath
    let esmBasePath := stripDotSlash esmP.basePath
    let relativePath :=
      if sStartsWith cleanPath (cjsBasePath ++ "/") then
        sDrop cleanPath (sLength cjsBasePath + 1)
      else if sStartsWith cleanPath (esmBasePath ++ "/") then
        sDrop cleanPath (sLength esmBasePath + 1)
      else cleanPath
    let cjsPath := cjsBasePath ++ "/" ++ cjsP.identifier ++ "/" ++ relativePath
    let esmPath := esmBasePath ++ "/" ++ esmP.identifier ++ "/" ++ relativePath
    generateConditionalExport fs cjsPath esmPath cleanPath
  | _, _ => none

/-- Strip the last extension of a path, the regex removing one dot
segment at the end; with no dot the path is unchanged. -/
def stripPathExt (s : String) : String :=
  match lastIdxOf s '.' with
  | none => s
  | some i => sTake s i

/-- Model of expandExtensionPattern. -/
def expandExtensionPattern (fs : FS) (cleanPath : String) (pattern : BuildPattern) :
    Option (List (String × String)) :=
  match pattern.cjsPattern, pattern.esmPattern with
  | some cjsP, some esmP =>
    let pathWithoutExt := stripPathExt cleanPath
    generateConditionalExport fs (pathWithoutExt ++ cjsP.identifier)
      (pathWithoutExt ++ esmP.identifier) cleanPath
  | _, _ => none

/-- Model of expandPrefixPattern. -/
def expandPrefixPattern (fs : FS) (cleanPath : String) (pattern : BuildPattern) :
    Option (List (String × String)) :=
  match pattern.cjsPattern, pattern.esmPattern with
  | some cjsP, some esmP =>
    let pathParts := sSplitSlash cleanPath
    let filename := pathParts.getLastD ""
    let dirPath := sJoinSlash pathParts.dropLast
    let cjsFilename := cjsP.identifier ++ "." ++ filename
    let esmFilename := esmP.identifier ++ "." ++ filename
    let cjsPath := if sIsEmpty dirPath then cjsFilename else dirPath ++ "/" ++ cjsFilename
    let esmPath := if sIsEmpty dirPath then esmFilename else dirPath ++ "/" ++ esmFilename
    generateConditionalExport fs cjsPath esmPath cleanPath
  | _, _ => none

/-- Model of expandUsageWithPattern. -/
def expandUsageWithPattern (fs : FS) (usagePath : String) (pattern : BuildPattern) :
    Option (List (String × String)) :=
  if !pattern.hasMultipleBuilds || pattern.cjsPattern = none
      || pattern.esmPattern = none then
    none
  else
    let cleanPath := stripDotSlash usagePath
    match pattern.patternType with
    | PatternType.directory => expandDirectoryPattern fs cleanPath pattern
    | PatternType.extension => expandExtensionPattern fs cleanPath pattern
    | PatternType.pfx => expandPrefixPattern fs cleanPath pattern
    | PatternType.nonePat => none

/-! ## Export entry values -/

/-- Value of one exports-map entry: a bare path string or a conditions
object whose keys are in insertion order. -/
inductive EVal where
  | str (s : String)
  | obj (cs : List (String × String))
deriving DecidableEq, Repr

/-- JavaScript truthiness of an exports-map value: the empty string is
the only falsy value of the declared value type. -/
def evalTruthy : EVal → Bool
  | EVal.str s => !sIsEmpty s
  | EVal.obj _ => true

/-! ## ExportEntryGenerator (src/core/packages/generateExportEntry.ts) -/

/-- Extensions tried by the exact search, in priority order. -/
def possibleExtensions : List String := ["", ".js", ".ts", ".jsx", ".tsx", ".mjs", ".cjs"]

/-- Build directories tried by the exact search, in priority order. -/
def possibleBases : List String := ["lib", "dist", "build", "out"]

/-- One build-directory round of the exact search over the extension
list: the direct file first, then the index file, per extension. -/
def exactSearchExts (fs : FS) (base cleanPath : String) : Option String :=
  match possibleExtensions.find?
      (fun ext => existsF fs (base ++ "/" ++ cleanPath ++ ext)
        || existsF fs (base ++ "/" ++ cleanPath ++ "/index" ++ ext)) with
  | some ext =>
    if existsF fs (base ++ "/" ++ cleanPath ++ ext) then some (cleanPath ++ ext)
    else some (cleanPath ++ "/index" ++ ext)
  | none => none

/-- Model of the nested search loop: first build directory with a hit
wins, yielding the found file and its build directory. -/
def exactSearch (fs : FS) (cleanPath : String) : Option (String × String) :=
  possibleBases.foldl
    (fun acc base =>
      match acc with
      | some r => some r
      | none => (exactSearchExts fs base cleanPath).map (fun f => (f, base)))
    none

/-- Rewrite a TypeScript extension to the compiled js extension. -/
def replaceTsWithJs (s : String) : String :=
  if sEndsWith s ".tsx" then sDropRight s 4 ++ ".js"
  else if sEndsWith s ".ts" then sDropRight s 3 ++ ".js"
  else s

/-- Compiled-output path of a found file, used for the default
condition and the import condition of the exact-search entry. -/
def exactJsPath (foundFile buildDir : String) : String :=
  if sEndsWith foundFile ".ts" || sEndsWith foundFile ".tsx" then
    "./" ++ buildDir ++ "/" ++ replaceTsWithJs foundFile
  else "./" ++ buildDir ++ "/" ++ foundFile

/-- Rewrite a compiled or TypeScript extension to the declaration
extension, for the types probe of the exact-search entry. -/
def replaceExtWithDts (s : String) : String :=
  if sEndsWith s ".tsx" then sDropRight s 4 ++ ".d.ts"
  else if sEndsWith s ".mjs" then sDropRight s 4 ++ ".d.ts"
  else if sEndsWith s ".cjs" then sDropRight s 4 ++ ".d.ts"
  else if sEndsWith s ".ts" then sDropRight s 3 ++ ".d.ts"
  else if sEndsWith s ".js" then sDropRight s 3 ++ ".d.ts"
  else s

/-- Source condition of the exact-search entry. -/
def exactSourcePart (fs : FS) (foundFile buildDir : String) : List (String × String) :=
  match findSourceFile fs (exactJsPath foundFile buildDir) with
  | some s => [("source", s)]
  | none => []

/-- Types condition of the exact-search entry. -/
def exactTypesPart (fs : FS) (foundFile buildDir : String) : List (String × String) :=
  let typesFile := replaceExtWithDts foundFile
  if existsF fs (buildDir ++ "/" ++ typesFile) then
    [("types", "./" ++ buildDir ++ "/" ++ typesFile)]
  else []

/-- Import condition of the exact-search entry, set for TypeScript
files only. -/
def exactImportPart (foundFile buildDir : String) : List (String × String) :=
  if sEndsWith foundFile ".ts" || sEndsWith foundFile ".tsx" then
    [("import", exactJsPath foundFile buildDir)]
  else []

/-- Conditions of the exact-search entry, in the insertion order of the
source: source, types, default, and import for TypeScript files. -/
def exactConds (fs : FS) (foundFile buildDir : String) : List (String × String) :=
  exactSourcePart fs foundFile buildDir ++ exactTypesPart fs foundFile buildDir
    ++ [("default", exactJsPath foundFile buildDir)]
    ++ exactImportPart foundFile buildDir

/-- Model of generateExportEntry: exact search, then the source
inference from the src directory, then the last-resort lib guess. -/
def generateExportEntry (fs : FS) (importPath : String) : EVal :=
  let cleanPath := stripDotSlash importPath
  match exactSearch fs cleanPath with
  | some (foundFile, buildDir) =>
    let conds := exactConds fs foundFile buildDir
    if conds.length = 1 then EVal.str (exactJsPath foundFile buildDir)
    else EVal.obj conds
  | none =>
    if existsF fs ("src/" ++ cleanPath ++ ".ts")
        || existsF fs ("src/" ++ cleanPath ++ "/index.ts") then
      let direct := existsF fs ("src/" ++ cleanPath ++ ".ts")
      let baseName := if direct then cleanPath else cleanPath ++ "/index"
      let sourceFilePath :=
        if direct then "./src/" ++ cleanPath ++ ".ts"
        else "./src/" ++ cleanPath ++ "/index.ts"
      EVal.obj [("source", sourceFilePath), ("types", "./lib/" ++ baseName ++ ".d.ts"),
        ("import", "./lib/" ++ baseName ++ ".js"),
        ("default", "./lib/" ++ baseName ++ ".js")]
    else
      let fallbackJsPath := "./lib/" ++ cleanPath ++ ".js"
      let sourcePart :=
        match findSourceFile fs fallbackJsPath with
        | some s => [("source", s)]
        | none => []
      EVal.obj (sourcePart ++ [("types", "./lib/" ++ cleanPath ++ ".d.ts"),
        ("default", fallbackJsPath)])

/-! ## Package descriptor -/

/-- Relevant fields of a parsed package.json.  Field values of other
JSON types are not representable; the sources only act on string
fields, guarded by typeof checks. -/
structure PkgJson where
  main : Option String := none
  modField : Option String := none
  types : Option String := none
  typings : Option String := none
  source : Option String := none
  browser : Option BrowserField := none
  typeField : Option String := none
  exports : Option (List (String × EVal)) := none
deriving DecidableEq, Repr

/-- Truthy string field, the combined truthiness and typeof test. -/
def strOk : Option String → Bool
  | some s => !sIsEmpty s
  | none => false

/-- Value of a truthy string field. -/
def strVal : Option String → Option String
  | some s => if sIsEmpty s then none else some s
  | none => none

/-! ## BaselineExportsGenerator (src/core/exports/generateBaselineExports.ts) -/

/-- Model of findSourceFromPackageJson: the explicit source field when
the referenced file exists. -/
def findSourceFromPackageJson (pj : PkgJson) (fs : FS) : Option String :=
  match pj.source with
  | some s =>
    if !sIsEmpty s then
      if existsF fs (stripDotSlash s) then some (normalizeRelativePath s) else none
    else none
  | none => none

/-- Root export conditions accumulated by generateBaselineExports
before the ordering pass, one optional slot per condition. -/
structure RootConds where
  src : Option String := none
  typesC : Option String := none
  importC : Option String := none
  requireC : Option String := none
  browserC : Option String := none
  defaultC : Option String := none
deriving DecidableEq, Repr

/-- Root conditions of the baseline generator, following the source in
order: explicit source field, types or typings, main with module-type
detection, module, browser. -/
def baselineRootConds (pj : PkgJson) (fs : FS) : RootConds :=
  let src0 := findSourceFromPackageJson pj fs
  let typesC := (strVal pj.types).orElse (fun _ => strVal pj.typings)
    |>.map normalizeRelativePath
  let st1 : RootConds := { src := src0, typesC := typesC }
  let st2 :=
    if strOk pj.main then
      let mainPath := normalizeRelativePath (pj.main.getD "")
      let moduleType := detectModuleType mainPath pj.typeField fs
      let requireC :=
        if moduleType = ModuleType.cjs || moduleType = ModuleType.unknown then
          some mainPath
        else none
      let src1 :=
        match st1.src with
        | some s => some s
        | none => findSourceFile fs mainPath
      { st1 with defaultC := some mainPath, requireC := requireC, src := src1 }
    else st1
  let st3 :=
    if strOk pj.modField then
      let modulePath := normalizeRelativePath (pj.modField.getD "")
      let src2 :=
        match st2.src with
        | some s => some s
        | none => findSourceFile fs modulePath
      { st2 with importC := some modulePath, src := src2 }
    else st2
  match pj.browser with
  | some bf =>
    match bf with
    | BrowserField.str v =>
      if sIsEmpty v then st3
      else
        match (parseBrowserField bf pj.main pj.modField).rootBrowser with
        | some rb => { st3 with browserC := some rb }
        | none => st3
    | BrowserField.obj _ =>
      match (parseBrowserField bf pj.main pj.modField).rootBrowser with
      | some rb => { st3 with browserC := some rb }
      | none => st3
  | none => st3

/-- Separate export entry generated from one browser mapping: a source
condition when one is found, the browser condition unless the mapping
is the false block marker, and the mapped key as default. -/
def browserEntryOf (fs : FS) (kv : String × BVal) : String × EVal :=
  match kv.2 with
  | BVal.fls =>
    (kv.1, EVal.obj ((match findSourceFile fs kv.1 with
      | some s => [("source", s)]
      | none => []) ++ [("default", kv.1)]))
  | BVal.s v =>
    (kv.1, EVal.obj ((match findSourceFile fs kv.1 with
      | some s => [("source", s)]
      | none => []) ++ [("browser", v), ("default", kv.1)]))

/-- Separate export entries generated from the per-path browser
mappings, in mapping order; an empty-string browser field fails the
truthiness guard and contributes nothing. -/
def browserMappingEntries (pj : PkgJson) (fs : FS) : List (String × EVal) :=
  match pj.browser with
  | none => []
  | some (BrowserField.str v) =>
    if sIsEmpty v then []
    else (parseBrowserField (BrowserField.str v) pj.main pj.modField).browserMappings.map
      (browserEntryOf fs)
  | some (BrowserField.obj entries) =>
    (parseBrowserField (BrowserField.obj entries) pj.main pj.modField).browserMappings.map
      (browserEntryOf fs)

/-- Ordering pass over the root conditions: the fixed key order of the
serialized entry. -/
def orderedRootExport (r : RootConds) : List (String × String) :=
  (match r.src with | some v => [("source", v)] | none => [])
    ++ (match r.typesC with | some v => [("types", v)] | none => [])
    ++ (match r.importC with | some v => [("import", v)] | none => [])
    ++ (match r.requireC with | some v => [("require", v)] | none => [])
    ++ (match r.browserC with | some v => [("browser", v)] | none => [])
    ++ (match r.defaultC with | some v => [("default", v)] | none => [])

/-- Root entry value of the baseline: collapsed to a bare string when
the ordered conditions hold a single entry, defaulted when they hold
none. -/
def baselineRootVal (pj : PkgJson) (fs : FS) : EVal :=
  match orderedRootExport (baselineRootConds pj fs) with
  | [] => EVal.str "./lib/index.js"
  | [kv] => EVal.str kv.2
  | kv1 :: kv2 :: t => EVal.obj (kv1 :: kv2 :: t)

/-- Model of generateBaselineExports: browser-mapping entries in loop
order, then the root entry, collapsed to a bare string when it has a
single condition and defaulted when it has none. -/
def generateBaselineExports (pj : PkgJson) (fs : FS) : List (String × EVal) :=
  browserMappingEntries pj fs ++ [(".", baselineRootVal pj fs)]

/-! ## ExportsMapAssembler (src/core/exports/generateExportsMap.ts) -/

/-- Starting map of the assembler: a copy of a pre-existing exports
field, else the generated baseline. -/
def initialExportsMap (pj : PkgJson) (fs : FS) : List (String × EVal) :=
  match pj.exports with
  | some e => e
  | none => generateBaselineExports pj fs

/-- Truthiness of the value found at a key, the JavaScript membership
test used by the assembler. -/
def truthyAt (m : List (String × EVal)) (k : String) : Bool :=
  match lookupKey m k with
  | some v => evalTruthy v
  | none => false

/-- Entry generated for one usage path: pattern-based expansion when a
dual build was detected, else the full per-path pipeline.  The result
depends only on the file system, the pattern and the path. -/
def usageEntry (fs : FS) (bp : BuildPattern) (p : String) : EVal :=
  match (if bp.hasMultipleBuilds then expandUsageWithPattern fs p bp else none) with
  | some cs => EVal.obj cs
  | none => generateExportEntry fs p

/-- One iteration of the assembler loop for one usage path. -/
def assembleStep (fs : FS) (bp : BuildPattern) (m : List (String × EVal)) (p : String) :
    List (String × EVal) :=
  if p = "." && truthyAt m "." then m
  else if truthyAt m p then m
  else if evalTruthy (usageEntry fs bp p) then setKey m p (usageEntry fs bp p)
  else m

/-- Model of generateExportsMap: the starting map, the detected build
pattern, and one loop iteration per usage path. -/
def generateExportsMap (fs : FS) (pj : PkgJson) (importPaths : List String) :
    List (String × EVal) :=
  let bp := detectBuildPattern pj.main pj.modField
  importPaths.foldl (assembleStep fs bp) (initialExportsMap pj fs)

/-! ## Fix pipeline write-back (src/evaluate.ts, updatePackageJson) -/

/-- Model of updatePackageJson: compare the existing exports field with
the computed map and write only on a difference.  The JSON
serialization of these values is injective given the insertion-order
representation, so string comparison is modelled by structural
equality. -/
def updatePackageJson (pj : PkgJson) (m : List (String × EVal)) : PkgJson × Bool :=
  if pj.exports = some m then (pj, false)
  else ({ pj with exports := some m }, true)

/-- One fix-pipeline pass over a single package: compute the map and
write it back when changed. -/
def fixPackage (fs : FS) (pj : PkgJson) (importPaths : List String) : PkgJson × Bool :=
  updatePackageJson pj (generateExportsMap fs pj importPaths)

/-! ## Shared lemmas on association lists -/

lemma lookupKey_append_right {α : Type} (l1 l2 : List (String × α)) (k : String)
    (h : ∀ kv ∈ l1, kv.1 ≠ k) : lookupKey (l1 ++ l2) k = lookupKey l2 k := by
  induction l1 with
  | nil => rfl
  | cons a t ih =>
    have ha : a.1 ≠ k := h a (by simp)
    simp only [List.cons_append, lookupKey, ha, if_neg ha]
    exact ih (fun kv hkv => h kv (by simp [hkv]))

lemma lookupKey_setKey_self {α : Type} (m : List (String × α)) (k : String) (v : α) :
    lookupKey (setKey m k v) k = some v := by
  induction m with
  | nil => simp [setKey, lookupKey]
  | cons a t ih =>
    cases a with
    | mk k' v' =>
      by_cases h : k' = k
      · simp [setKey, lookupKey, h]
      · simp [setKey, lookupKey, h, ih]

lemma lookupKey_setKey_ne {α : Type} (m : List (String × α)) (p k : String) (v : α)
    (h : p ≠ k) : lookupKey (setKey m p v) k = lookupKey m k := by
  induction m with
  | nil => simp [setKey, lookupKey, h]
  | cons a t ih =>
    cases a with
    | mk k' v' =>
      by_cases h' : k' = p
      · subst h'
        simp [setKey, lookupKey, h]
      · simp [setKey, lookupKey, h']
        by_cases h'' : k' = k <;> simp [h'', ih]

lemma mem_setKey {α : Type} (m : List (String × α)) (k : String) (v : α) (kv : String × α)
    (h : kv ∈ setKey m k v) : kv ∈ m ∨ kv = (k, v) := by
  induction m with
  | nil =>
    simp [setKey] at h
    exact Or.inr h
  | cons a t ih =>
    cases a with
    | mk k' v' =>
      by_cases h' : k' = k
      · simp [setKey, h'] at h
        rcases h with h | h
        · exact Or.inr h
        · exact Or.inl (by simp [h])
      · simp [setKey, h'] at h
        rcases h with h | h
        · exact Or.inl (by simp [h])
        · rcases ih h with h2 | h2
          · exact Or.inl (by simp [h2])
          · exact Or.inr h2

/-! ## Concrete inputs used by the claim instances -/

/-- File system with the given paths as readable empty files. -/
def plainFS (ps : List String) : FS := ⟨ps.map (fun p => ⟨p, some ""⟩)⟩

/-! ## Claim C10 -/

/-- C10: baseline generation collapses a single-condition root entry to
a bare string even when the sole condition is not default.  For a
package.json that carries only a types field, the generated map binds
the root subpath to the bare types path string, losing the information
that it was a types condition. -/
theorem C10_baseline_single_types_collapses_to_bare_string :
    generateBaselineExports { types := some "lib/index.d.ts" } (plainFS [])
      = [(".", EVal.str "./lib/index.d.ts")] := by
  decide

/-! ## Claim C2 -/

/-- C2: evaluation of the code at the failing input.  With only the
file lib/utils.ts on disk, the exact search resolves the usage path to
a TypeScript file and emits the conditions object with the keys in the
order default then import, so the generated ExportConditions object
with two keys does not list its keys as a subsequence of the fixed
order source, types, import, require, browser, default. -/
theorem C2_exact_search_ts_entry_breaks_condition_order :
    generateExportEntry (plainFS ["lib/utils.ts"]) "./utils"
      = EVal.obj [("default", "./lib/utils.js"), ("import", "./lib/utils.js")] := by
  decide

/-! ## Claim C3 -/

/-- C3: evaluation of the code at the failing input, together with the
input on which the claimed entry is actually produced.  In a package
where only src/utils.ts exists, the usage path lib/utils is probed as
src/lib/utils.ts by the source-inference fallback, which misses, and
the last resort then emits doubled lib segments; the entry claimed by
the specification is produced for the usage path utils instead. -/
theorem C3_source_inference_usage_path_not_stripped :
    generateExportEntry (plainFS ["src/utils.ts"]) "./lib/utils"
      = EVal.obj [("types", "./lib/lib/utils.d.ts"), ("default", "./lib/lib/utils.js")]
    ∧ generateExportEntry (plainFS ["src/utils.ts"]) "./utils"
      = EVal.obj [("source", "./src/utils.ts"), ("types", "./lib/utils.d.ts"),
          ("import", "./lib/utils.js"), ("default", "./lib/utils.js")] := by
  constructor
  · decide
  · decide

/-! ## Claim C4 -/

lemma gceSourcePart_keys (fs : FS) (o : String) (kv : String × String)
    (h : kv ∈ gceSourcePart fs o) : kv.1 = "source" := by
  unfold gceSourcePart at h
  split at h <;> simp_all

lemma gceTypesPart_keys (fs : FS) (c e o : String) (kv : String × String)
    (h : kv ∈ gceTypesPart fs c e o) : kv.1 = "types" := by
  unfold gceTypesPart at h
  split at h
  · simp_all
  · split at h
    · split at h <;> simp_all
    · simp_all

lemma gceImportPart_keys (fs : FS) (e : String) (kv : String × String)
    (h : kv ∈ gceImportPart fs e) : kv.1 = "import" := by
  unfold gceImportPart at h
  split at h <;> simp_all

lemma gceRequirePart_keys (fs : FS) (c : String) (kv : String × String)
    (h : kv ∈ gceRequirePart fs c) : kv.1 = "require" := by
  unfold gceRequirePart at h
  split at h <;> simp_all

/-- C4: in the directory dual-build scenario with main lib/cjs/index.js
and module lib/esm/index.js, where the cjs and esm variants of the
usage path lib/utils.js exist but the original path does not, the
expansion produces exactly the import, require and default conditions
with the ESM variant as default; and in general the default condition
of a produced conditional export equals the first valid path among the
unmodified original, the ESM variant and the CJS variant. -/
theorem C4_directory_pattern_scenario_and_default_preference :
    expandUsageWithPattern
        (plainFS ["lib/cjs/index.js", "lib/esm/index.js", "lib/cjs/utils.js",
          "lib/esm/utils.js"])
        "./lib/utils.js"
        (detectBuildPattern (some "./lib/cjs/index.js") (some "./lib/esm/index.js"))
      = some [("import", "./lib/esm/utils.js"), ("require", "./lib/cjs/utils.js"),
          ("default", "./lib/esm/utils.js")]
    ∧ ∀ (fs : FS) (cjsPath esmPath originalPath : String)
        (entry : List (String × String)),
        generateConditionalExport fs cjsPath esmPath originalPath = some entry →
        lookupKey entry "default" = gceDefaultChoice fs cjsPath esmPath originalPath := by
  constructor
  · decide
  · intro fs c e o entry h
    unfold generateConditionalExport at h
    split at h
    · exact absurd h (by simp)
    · split at h
      · exact absurd h (by simp)
      · have he : entry = gceEntry fs c e o := by
          injection h with h'
          exact h'.symm
        subst he
        unfold gceEntry
        rw [lookupKey_append_right]
        · unfold gceDefaultPart
          cases hm : gceDefaultChoice fs c e o <;> simp [lookupKey]
        · intro kv hkv
          simp only [List.mem_append] at hkv
          rcases hkv with ((hs | ht) | hi) | hr
          · rw [gceSourcePart_keys fs o kv hs]
            decide
          · rw [gceTypesPart_keys fs c e o kv ht]
            decide
          · rw [gceImportPart_keys fs e kv hi]
            decide
          · rw [gceRequirePart_keys fs c kv hr]
            decide

/-- C4 witness: the general default-preference statement applied to
the concrete scenario paths. -/
theorem C4_witness :
    generateConditionalExport
        (plainFS ["lib/cjs/index.js", "lib/esm/index.js", "lib/cjs/utils.js",
          "lib/esm/utils.js"])
        "lib/cjs/utils.js" "lib/esm/utils.js" "lib/utils.js"
      = some [("import", "./lib/esm/utils.js"), ("require", "./lib/cjs/utils.js"),
          ("default", "./lib/esm/utils.js")]
    ∧ lookupKey [("import", "./lib/esm/utils.js"), ("require", "./lib/cjs/utils.js"),
          ("default", "./lib/esm/utils.js")] "default"
      = gceDefaultChoice
          (plainFS ["lib/cjs/index.js", "lib/esm/index.js", "lib/cjs/utils.js",
            "lib/esm/utils.js"])
          "lib/cjs/utils.js" "lib/esm/utils.js" "lib/utils.js" :=
  ⟨by decide,
    C4_directory_pattern_scenario_and_default_preference.2 _ _ _ _ _ (by decide)⟩

/-! ## Claim C7 -/

/-- C7 counterexample: with the module-matching entry listed before the
main-matching entry, rootBrowser is still the main value, but the
module-matching entry is discarded instead of becoming a normal
browser mapping, contradicting the claim that the mapping is kept
regardless of entry order. -/
theorem C7_module_first_entry_discarded :
    parseBrowserField
        (BrowserField.obj [("./lib/module.js", BVal.s "./lib/b2.js"),
          ("./lib/main.js", BVal.s "./lib/b1.js")])
        (some "./lib/main.js") (some "./lib/module.js")
      = ⟨some "./lib/b1.js", []⟩ := by
  decide

/-- C7 amended: for an object-form browser field holding an entry for
the main field with a non-false value and an entry for the module
field, the outcome depends on entry order.  When the main entry comes
first, rootBrowser is the main value and the module entry becomes a
normal mapping; when the module entry comes first, it is consumed
while scanning and discarded, leaving rootBrowser as the main value
and no mapping. -/
theorem C7_browser_module_demotion_order_dependent :
    ∀ (kM vM kMo m mo : String) (w : BVal),
      sIsEmpty m = false → sIsEmpty mo = false →
      normalizeRelativePath kM = normalizeRelativePath m →
      normalizeRelativePath kMo = normalizeRelativePath mo →
      normalizeRelativePath m ≠ normalizeRelativePath mo →
      parseBrowserField (BrowserField.obj [(kM, BVal.s vM), (kMo, w)])
          (some m) (some mo)
        = ⟨some (normalizeRelativePath vM),
            [(normalizeRelativePath kMo, normBVal w)]⟩
      ∧ parseBrowserField (BrowserField.obj [(kMo, w), (kM, BVal.s vM)])
          (some m) (some mo)
        = ⟨some (normalizeRelativePath vM), []⟩ := by
  intro kM vM kMo m mo w hm hmo hKM hKMo hne
  cases w <;>
    constructor <;>
      simp [parseBrowserField, browserStep, optNorm, setKey, normBVal,
        hm, hmo, hKM, hKMo, hne]

/-- C7 witness: the amended statement at concrete entries. -/
theorem C7_witness :
    parseBrowserField
        (BrowserField.obj [("./lib/main.js", BVal.s "./b1.js"),
          ("./lib/module.js", BVal.s "./b2.js")])
        (some "./lib/main.js") (some "./lib/module.js")
      = ⟨some "./b1.js", [("./lib/module.js", BVal.s "./b2.js")]⟩
    ∧ parseBrowserField
        (BrowserField.obj [("./lib/module.js", BVal.s "./b2.js"),
          ("./lib/main.js", BVal.s "./b1.js")])
        (some "./lib/main.js") (some "./lib/module.js")
      = ⟨some "./b1.js", []⟩ :=
  C7_browser_module_demotion_order_dependent "./lib/main.js" "./b1.js"
    "./lib/module.js" "./lib/main.js" "./lib/module.js" (BVal.s "./b2.js")
    (by decide) (by decide) (by decide) (by decide) (by decide)

/-! ## Claim C8 -/

/-- C8 counterexample: the path consisting of the bare dotfile name
with the mjs ending has an empty extname under the Node semantics, so
the package.json type field decides and the result is cjs, not esm;
hence not every path ending in mjs yields esm. -/
theorem C8_dotfile_mjs_not_esm :
    detectModuleType ".mjs" (some "commonjs") (plainFS []) = ModuleType.cjs := by
  decide

/-- C8 amended: detection follows the strict priority starting with
the extension, so every path whose extname is the mjs extension yields
esm and every path whose extname is the cjs extension yields cjs,
regardless of the type field and the file content; and for every input
the function returns one of the three values, never an error. -/
theorem C8_extension_priority_and_totality :
    (∀ (p : String) (t : Option String) (fs : FS),
      jsExtname p = ".mjs" → detectModuleType p t fs = ModuleType.esm)
    ∧ (∀ (p : String) (t : Option String) (fs : FS),
      jsExtname p = ".cjs" → detectModuleType p t fs = ModuleType.cjs)
    ∧ (∀ (p : String) (t : Option String) (fs : FS),
      detectModuleType p t fs = ModuleType.esm
        ∨ detectModuleType p t fs = ModuleType.cjs
        ∨ detectModuleType p t fs = ModuleType.unknown) := by
  refine ⟨?_, ?_, ?_⟩
  · intro p t fs h
    unfold detectModuleType
    rw [h]
    simp
  · intro p t fs h
    unfold detectModuleType
    rw [h]
    simp
  · intro p t fs
    cases h : detectModuleType p t fs
    · exact Or.inl rfl
    · exact Or.inr (Or.inl rfl)
    · exact Or.inr (Or.inr rfl)

/-- C8 witness: the amended statement at concrete inputs. -/
theorem C8_witness :
    detectModuleType "a.mjs" (some "commonjs") (plainFS []) = ModuleType.esm
    ∧ detectModuleType "b.cjs" (some "module") (plainFS []) = ModuleType.cjs :=
  ⟨C8_extension_priority_and_totality.1 "a.mjs" (some "commonjs") (plainFS [])
      (by decide),
    C8_extension_priority_and_totality.2.1 "b.cjs" (some "module") (plainFS [])
      (by decide)⟩

/-! ## Claim C9 -/

lemma norm_ne_dot (s : String) : normalizeRelativePath s ≠ "." := by
  unfold normalizeRelativePath
  by_cases h : sStartsWith s "./" = true
  · rw [if_pos h]
    intro he
    rw [he] at h
    exact absurd h (by decide)
  · rw [if_neg h]
    intro he
    have h2 : ("./" ++ s).data = ".".data := congrArg String.data he
    rw [String.data_append] at h2
    simp at h2

lemma browserStep_keys (nm nmo : Option String)
    (st : Option String × List (String × BVal)) (kv : String × BVal)
    (h : ∀ e ∈ st.2, e.1 ≠ ".") :
    ∀ e ∈ (browserStep nm nmo st kv).2, e.1 ≠ "." := by
  intro e he
  unfold browserStep at he
  split at he
  · split at he
    · exact h e he
    · exact h e he
  · split at he
    · split at he
      · exact h e he
      · rcases mem_setKey _ _ _ _ he with h2 | h2
        · exact h e h2
        · rw [h2]
          exact norm_ne_dot kv.1
      · exact h e he
    · rcases mem_setKey _ _ _ _ he with h2 | h2
      · exact h e h2
      · rw [h2]
        exact norm_ne_dot kv.1

lemma foldl_browserStep_keys (l : List (String × BVal)) (nm nmo : Option String) :
    ∀ (st : Option String × List (String × BVal)), (∀ e ∈ st.2, e.1 ≠ ".") →
      ∀ e ∈ (l.foldl (browserStep nm nmo) st).2, e.1 ≠ "." := by
  induction l with
  | nil => intro st h; exact h
  | cons kv t ih =>
    intro st h
    exact ih (browserStep nm nmo st kv) (browserStep_keys nm nmo st kv h)

lemma parseBrowserField_mappings_keys (bf : BrowserField) (m mo : Option String) :
    ∀ e ∈ (parseBrowserField bf m mo).browserMappings, e.1 ≠ "." := by
  cases bf with
  | str v => simp [parseBrowserField]
  | obj entries =>
    intro e he
    unfold parseBrowserField at he
    exact foldl_browserStep_keys entries (optNorm m) (optNorm mo) (none, [])
      (by simp) e he

lemma browserEntryOf_key (fs : FS) (kv : String × BVal) :
    (browserEntryOf fs kv).1 = kv.1 := by
  unfold browserEntryOf
  split <;> rfl

lemma browserMappingEntries_keys (pj : PkgJson) (fs : FS) :
    ∀ e ∈ browserMappingEntries pj fs, e.1 ≠ "." := by
  intro e he
  unfold browserMappingEntries at he
  split at he
  · simp at he
  · split at he
    · simp at he
    · simp only [List.mem_map] at he
      obtain ⟨kv, hkv, hmap⟩ := he
      rw [← hmap, browserEntryOf_key]
      exact parseBrowserField_mappings_keys _ _ _ kv hkv
  · simp only [List.mem_map] at he
    obtain ⟨kv, hkv, hmap⟩ := he
    rw [← hmap, browserEntryOf_key]
    exact parseBrowserField_mappings_keys _ _ _ kv hkv

lemma baseline_lookup_dot (pj : PkgJson) (fs : FS) :
    lookupKey (generateBaselineExports pj fs) "." = some (baselineRootVal pj fs) := by
  unfold generateBaselineExports
  rw [lookupKey_append_right _ _ _ (fun kv hkv => browserMappingEntries_keys pj fs kv hkv)]
  simp [lookupKey]

/-- C9: single-key default collapse.  A baseline root entry whose
ordered conditions reduce to the single default condition is emitted
as the bare default string, and an exact-search entry whose conditions
object has a single key is the bare default string, that single key
necessarily being default. -/
theorem C9_single_default_collapse :
    (∀ (pj : PkgJson) (fs : FS) (v : String),
      orderedRootExport (baselineRootConds pj fs) = [("default", v)] →
      lookupKey (generateBaselineExports pj fs) "." = some (EVal.str v))
    ∧ (∀ (fs : FS) (p foundFile buildDir : String),
      exactSearch fs (stripDotSlash p) = some (foundFile, buildDir) →
      (exactConds fs foundFile buildDir).length = 1 →
      generateExportEntry fs p = EVal.str (exactJsPath foundFile buildDir)
        ∧ exactConds fs foundFile buildDir
            = [("default", exactJsPath foundFile buildDir)]) := by
  constructor
  · intro pj fs v h
    rw [baseline_lookup_dot]
    unfold baselineRootVal
    rw [h]
  · intro fs p foundFile buildDir hsearch hlen
    have hparts : exactSourcePart fs foundFile buildDir = []
        ∧ exactTypesPart fs foundFile buildDir = []
        ∧ exactImportPart foundFile buildDir = [] := by
      have h2 := hlen
      unfold exactConds at h2
      simp only [List.length_append, List.length_cons, List.length_nil] at h2
      refine ⟨List.length_eq_zero.mp ?_, List.length_eq_zero.mp ?_,
        List.length_eq_zero.mp ?_⟩ <;> omega
    have hconds : exactConds fs foundFile buildDir
        = [("default", exactJsPath foundFile buildDir)] := by
      unfold exactConds
      rw [hparts.1, hparts.2.1, hparts.2.2]
      simp
    refine ⟨?_, hconds⟩
    simp only [generateExportEntry]
    rw [hsearch]
    simp [hlen]

/-- C9 witness: both parts applied at concrete packages.  The first is
a package whose main field resolves to an ESM module, leaving only the
default condition; the second is a plain compiled file with no types
and no source. -/
theorem C9_witness :
    lookupKey
        (generateBaselineExports
          { main := some "lib/index.js", typeField := some "module" } (plainFS []))
        "."
      = some (EVal.str "./lib/index.js")
    ∧ generateExportEntry (plainFS ["lib/utils.js"]) "./utils"
      = EVal.str (exactJsPath "utils.js" "lib") :=
  ⟨C9_single_default_collapse.1
      { main := some "lib/index.js", typeField := some "module" } (plainFS [])
      "./lib/index.js" (by decide),
    (C9_single_default_collapse.2 (plainFS ["lib/utils.js"]) "./utils" "utils.js" "lib"
      (by decide) (by decide)).1⟩

/-! ## Claim C1 -/

lemma assemble_preserves (fs : FS) (bp : BuildPattern) :
    ∀ (ps : List String) (m : List (String × EVal)) (k : String) (v : EVal),
      lookupKey m k = some v → evalTruthy v = true →
      lookupKey (ps.foldl (assembleStep fs bp) m) k = some v := by
  intro ps
  induction ps with
  | nil => intro m k v h _; exact h
  | cons p t ih =>
    intro m k v h hv
    apply ih (assembleStep fs bp m p) k v _ hv
    unfold assembleStep
    split
    · exact h
    · split
      · exact h
      · rename_i hg2
        by_cases hpk : p = k
        · exfalso
          apply hg2
          subst hpk
          simp [truthyAt, h, hv]
        · split
          · rw [lookupKey_setKey_ne _ _ _ _ hpk]
            exact h
          · exact h

/-- C1 counterexample: a pre-existing exports field binding a subpath
to the empty string, a value of the declared exports type, is not
preserved: the JavaScript truthiness test treats it as absent, and
usage-driven generation rebinds the key to a generated entry. -/
theorem C1_falsy_existing_entry_overwritten :
    initialExportsMap { exports := some [("./x", EVal.str "")] } (plainFS [])
      = [("./x", EVal.str "")]
    ∧ lookupKey
        (generateExportsMap (plainFS []) { exports := some [("./x", EVal.str "")] }
          ["./x"])
        "./x"
      ≠ some (EVal.str "") := by
  constructor
  · decide
  · decide

/-- C1 amended: every key of the starting map, whether from a
pre-existing exports field or from baseline generation, that is bound
to a truthy value, i.e. a non-empty string or any conditions object,
is still bound to that exact value after usage-driven generation; only
keys that are absent or bound to a falsy value can be rebound. -/
theorem C1_truthy_entries_preserved :
    ∀ (fs : FS) (pj : PkgJson) (ps : List String) (k : String) (v : EVal),
      lookupKey (initialExportsMap pj fs) k = some v → evalTruthy v = true →
      lookupKey (generateExportsMap fs pj ps) k = some v := by
  intro fs pj ps k v h hv
  unfold generateExportsMap
  exact assemble_preserves fs (detectBuildPattern pj.main pj.modField) ps
    (initialExportsMap pj fs) k v h hv

/-- C1 witness: a pre-existing entry bound to a conditions object and
one bound to a non-empty string survive a run that adds a new usage
path. -/
theorem C1_witness :
    lookupKey
        (generateExportsMap (plainFS [])
          { exports := some [(".", EVal.obj [("default", "./lib/index.js")]),
              ("./a", EVal.str "./lib/a.js")] }
          ["./a", "./b"])
        "./a"
      = some (EVal.str "./lib/a.js") :=
  C1_truthy_entries_preserved (plainFS [])
    { exports := some [(".", EVal.obj [("default", "./lib/index.js")]),
        ("./a", EVal.str "./lib/a.js")] }
    ["./a", "./b"] "./a" (EVal.str "./lib/a.js") (by decide) (by decide)

/-! ## Claim C5 -/

lemma assembleStep_of_truthy (fs : FS) (bp : BuildPattern)
    (m : List (String × EVal)) (p : String) (h : truthyAt m p = true) :
    assembleStep fs bp m p = m := by
  unfold assembleStep
  by_cases hp : p = "."
  · subst hp
    simp [h]
  · simp [hp, h]

lemma assembleStep_of_dead (fs : FS) (bp : BuildPattern)
    (m : List (String × EVal)) (p : String) (h1 : truthyAt m p = false)
    (h2 : evalTruthy (usageEntry fs bp p) = false) :
    assembleStep fs bp m p = m := by
  unfold assembleStep
  by_cases hp : p = "."
  · subst hp
    simp [h1, h2]
  · simp [hp, h1, h2]

lemma truthyAt_assembleStep_mono (fs : FS) (bp : BuildPattern)
    (m : List (String × EVal)) (p k : String) (h : truthyAt m k = true) :
    truthyAt (assembleStep fs bp m p) k = true := by
  unfold assembleStep
  split
  · exact h
  · split
    · exact h
    · split
      · rename_i he
        by_cases hpk : p = k
        · subst hpk
          simp [truthyAt, lookupKey_setKey_self, he]
        · unfold truthyAt
          rw [lookupKey_setKey_ne _ _ _ _ hpk]
          exact h
      · exact h

lemma truthyAt_foldl_mono (fs : FS) (bp : BuildPattern) :
    ∀ (l : List String) (m : List (String × EVal)) (k : String),
      truthyAt m k = true → truthyAt (l.foldl (assembleStep fs bp) m) k = true := by
  intro l
  induction l with
  | nil => intro m k h; exact h
  | cons q t ih =>
    intro m k h
    exact ih (assembleStep fs bp m q) k (truthyAt_assembleStep_mono fs bp m q k h)

lemma assembleStep_post (fs : FS) (bp : BuildPattern)
    (m : List (String × EVal)) (p : String) :
    truthyAt (assembleStep fs bp m p) p = true
      ∨ evalTruthy (usageEntry fs bp p) = false := by
  by_cases h1 : truthyAt m p = true
  · left
    rw [assembleStep_of_truthy fs bp m p h1]
    exact h1
  · have h1' : truthyAt m p = false := by
      simpa using h1
    by_cases h2 : evalTruthy (usageEntry fs bp p) = true
    · left
      have hstep : assembleStep fs bp m p = setKey m p (usageEntry fs bp p) := by
        unfold assembleStep
        by_cases hp : p = "."
        · subst hp
          simp [h1', h2]
        · simp [hp, h1', h2]
      rw [hstep]
      unfold truthyAt
      rw [lookupKey_setKey_self]
      exact h2
    · right
      simpa using h2

lemma foldl_usage_post (fs : FS) (bp : BuildPattern) :
    ∀ (l : List String) (m : List (String × EVal)) (p : String), p ∈ l →
      truthyAt (l.foldl (assembleStep fs bp) m) p = true
        ∨ evalTruthy (usageEntry fs bp p) = false := by
  intro l
  induction l with
  | nil => intro m p h; simp at h
  | cons q t ih =>
    intro m p hp
    rcases List.mem_cons.mp hp with h | h
    · subst h
      rcases assembleStep_post fs bp m p with h2 | h2
      · exact Or.inl (truthyAt_foldl_mono fs bp t _ p h2)
      · exact Or.inr h2
    · exact ih (assembleStep fs bp m q) p h

lemma foldl_fixpoint (fs : FS) (bp : BuildPattern) :
    ∀ (l : List String) (m : List (String × EVal)),
      (∀ p ∈ l, truthyAt m p = true ∨ evalTruthy (usageEntry fs bp p) = false) →
      l.foldl (assembleStep fs bp) m = m := by
  intro l
  induction l with
  | nil => intro m _; rfl
  | cons q t ih =>
    intro m h
    have hstep : assembleStep fs bp m q = m := by
      rcases h q (by simp) with h1 | h1
      · exact assembleStep_of_truthy fs bp m q h1
      · by_cases h2 : truthyAt m q = true
        · exact assembleStep_of_truthy fs bp m q h2
        · exact assembleStep_of_dead fs bp m q (by simpa using h2) h1
    show t.foldl (assembleStep fs bp) (assembleStep fs bp m q) = m
    rw [hstep]
    exact ih m (fun p hp => h p (by simp [hp]))

/-- C5: the fix pipeline is idempotent on an unchanged tree with the
same usage data.  After one pass over a package, a second pass
recomputes the same exports map, so the write-back detects no change,
returns false, and leaves the package untouched. -/
theorem C5_fix_idempotent :
    ∀ (fs : FS) (pj : PkgJson) (ps : List String),
      fixPackage fs ((fixPackage fs pj ps).1) ps = ((fixPackage fs pj ps).1, false) := by
  intro fs pj ps
  by_cases h : pj.exports = some (generateExportsMap fs pj ps)
  · have hrun1 : fixPackage fs pj ps = (pj, false) := by
      unfold fixPackage updatePackageJson
      simp [h]
    rw [hrun1]
    exact hrun1
  · have hrun1 : fixPackage fs pj ps
        = ({ pj with exports := some (generateExportsMap fs pj ps) }, true) := by
      unfold fixPackage updatePackageJson
      simp [h]
    rw [hrun1]
    have hmap : generateExportsMap fs
        { pj with exports := some (generateExportsMap fs pj ps) } ps
        = generateExportsMap fs pj ps := by
      show ps.foldl (assembleStep fs (detectBuildPattern pj.main pj.modField))
          (generateExportsMap fs pj ps)
        = generateExportsMap fs pj ps
      apply foldl_fixpoint
      intro p hp
      exact foldl_usage_post fs (detectBuildPattern pj.main pj.modField) ps
        (initialExportsMap pj fs) p hp
    unfold fixPackage updatePackageJson
    rw [hmap]
    simp


/-! ## Claim C6 -/

lemma isCjs_not_isEsm (s : String) (h : isCjsIdentifier s = true) :
    isEsmIdentifier s = false := by
  unfold isCjsIdentifier at h
  unfold isEsmIdentifier
  revert h
  generalize sToLower s = t
  intro h
  simp only [Bool.or_eq_true, beq_iff_eq] at h
  rcases h with ((h | h) | h) | h <;> subst h <;> decide

lemma isEsm_not_isCjs (s : String) (h : isEsmIdentifier s = true) :
    isCjsIdentifier s = false := by
  unfold isEsmIdentifier at h
  unfold isCjsIdentifier
  revert h
  generalize sToLower s = t
  intro h
  simp only [Bool.or_eq_true, beq_iff_eq] at h
  rcases h with (((h | h) | h) | h) | h <;> subst h <;> decide

lemma cjsExt_esmExt_overlap (e : String) (h1 : isCjsExtension e = true)
    (h2 : isEsmExtension e = true) : e = ".js" := by
  unfold isCjsExtension at h1
  unfold isEsmExtension at h2
  simp only [Bool.or_eq_true, beq_iff_eq] at h1 h2
  rcases h2 with h2 | h2
  · rcases h1 with h1 | h1 <;> (rw [h1] at h2; exact absurd h2 (by decide))
  · exact h2

lemma idPairBranch_swap (pt : PatternType) (b1 b2 x y : String) :
    idPairBranch pt b2 b1 y x = idPairBranch pt b1 b2 x y := by
  unfold idPairBranch
  cases hc1 : (isCjsIdentifier x && isEsmIdentifier y) with
  | true =>
    have hc1' := hc1
    rw [Bool.and_eq_true] at hc1'
    have hc2 : (isCjsIdentifier y && isEsmIdentifier x) = false := by
      rw [isEsm_not_isCjs y hc1'.2, Bool.false_and]
    simp [hc1, hc2]
  | false =>
    cases hc2 : (isCjsIdentifier y && isEsmIdentifier x) with
    | true => simp [hc1, hc2]
    | false => simp [hc1, hc2]

lemma extPairBranch_swap (b1 b2 e1 e2 : String) (hbase : b1 = b2) :
    extPairBranch b2 b1 e2 e1 = extPairBranch b1 b2 e1 e2 := by
  unfold extPairBranch
  cases hc1 : (isCjsExtension e1 && isEsmExtension e2) with
  | true =>
    have hc1' := hc1
    rw [Bool.and_eq_true] at hc1'
    cases hc2 : (isCjsExtension e2 && isEsmExtension e1) with
    | true =>
      have hc2' := hc2
      rw [Bool.and_eq_true] at hc2'
      have he1 : e1 = ".js" := cjsExt_esmExt_overlap e1 hc1'.1 hc2'.2
      have he2 : e2 = ".js" := cjsExt_esmExt_overlap e2 hc2'.1 hc1'.2
      simp [hc1, hc2, he1, he2, hbase]
    | false => simp [hc1, hc2]
  | false =>
    cases hc2 : (isCjsExtension e2 && isEsmExtension e1) with
    | true => simp [hc1, hc2]
    | false => simp [hc1, hc2]

lemma diffPairsAux_swap :
    ∀ (xs ys : List String) (i : Nat),
      diffPairsAux i ys xs
        = (diffPairsAux i xs ys).map (fun t => (t.1, t.2.2, t.2.1)) := by
  intro xs
  induction xs with
  | nil => intro ys i; cases ys <;> rfl
  | cons a as ih =>
    intro ys i
    cases ys with
    | nil => rfl
    | cons b bs =>
      show (if b = a then [] else [(i, b, a)]) ++ diffPairsAux (i + 1) bs as
        = ((if a = b then [] else [(i, a, b)]) ++ diffPairsAux (i + 1) as bs).map
            (fun t => (t.1, t.2.2, t.2.1))
      rw [List.map_append, ih bs (i + 1)]
      congr 1
      by_cases h : a = b
      · subst h
        simp
      · have h' : ¬ b = a := fun he => h he.symm
        rw [if_neg h, if_neg h']
        rfl

lemma sBeq_comm (x y : String) : (x == y) = (y == x) := by
  by_cases h : x = y
  · subst h
    rfl
  · have h' : ¬ y = x := fun he => h he.symm
    simp [h, h']

lemma areFilenamesCompatible_comm (x y : String) :
    areFilenamesCompatible x y = areFilenamesCompatible y x := by
  unfold areFilenamesCompatible
  rw [sBeq_comm x y, sBeq_comm (stripLastExt x) (stripLastExt y)]

lemma detectDirectoryParts_symm (xs ys : List String) :
    detectDirectoryParts ys xs = detectDirectoryParts xs ys := by
  unfold detectDirectoryParts
  by_cases hlen : xs.length = ys.length
  · rw [if_pos hlen, if_pos hlen.symm]
    rw [areFilenamesCompatible_comm (ys.getLastD "") (xs.getLastD "")]
    by_cases hfn : areFilenamesCompatible (xs.getLastD "") (ys.getLastD "") = true
    · rw [if_pos hfn, if_pos hfn]
      rw [diffPairsAux_swap xs.dropLast ys.dropLast 0]
      rcases hd : diffPairsAux 0 xs.dropLast ys.dropLast
        with _ | ⟨⟨i, x, y⟩, _ | ⟨t2, rest⟩⟩
      · rfl
      · simp only [List.map_cons, List.map_nil]
        exact idPairBranch_swap PatternType.directory
          (sJoinSlash (xs.take i)) (sJoinSlash (ys.take i)) x y
      · rfl
    · rw [if_neg hfn, if_neg hfn]
  · have hlen' : ¬ ys.length = xs.length := fun he => hlen he.symm
    rw [if_neg hlen', if_neg hlen]

lemma detectDirectoryPattern_symm (a b : String) :
    detectDirectoryPattern b a = detectDirectoryPattern a b :=
  detectDirectoryParts_symm (sSplitSlash a) (sSplitSlash b)

lemma detectExtensionPattern_symm (a b : String) :
    detectExtensionPattern b a = detectExtensionPattern a b := by
  unfold detectExtensionPattern
  by_cases hbase : sliceBeforeLastDot a = sliceBeforeLastDot b
  · rw [if_pos hbase.symm, if_pos hbase]
    rw [hbase]
    exact extPairBranch_swap (sliceBeforeLastDot b) (sliceBeforeLastDot b)
      (getFileExtension a) (getFileExtension b) rfl
  · have hbase' : ¬ sliceBeforeLastDot b = sliceBeforeLastDot a :=
      fun he => hbase he.symm
    rw [if_neg hbase', if_neg hbase]

lemma detectPrefixParts_symm (xs ys : List String) :
    detectPrefixParts ys xs = detectPrefixParts xs ys := by
  unfold detectPrefixParts
  by_cases hlen : xs.length = ys.length
  · rw [if_pos hlen, if_pos hlen.symm]
    by_cases hdrop : xs.dropLast = ys.dropLast
    · rw [if_pos hdrop, if_pos hdrop.symm]
      cases hpx : extractPfx (xs.getLastD "") with
      | none =>
        cases hpy : extractPfx (ys.getLastD "") <;> rfl
      | some px =>
        cases hpy : extractPfx (ys.getLastD "") with
        | none => rfl
        | some py =>
          dsimp only
          by_cases hrem : sDrop (xs.getLastD "") (sLength px + 1)
              = sDrop (ys.getLastD "") (sLength py + 1)
          · rw [if_pos hrem.symm, if_pos hrem]
            rw [hdrop]
            exact idPairBranch_swap PatternType.pfx
              (sJoinSlash (ys.dropLast)) (sJoinSlash (ys.dropLast)) px py
          · have hrem' : ¬ sDrop (ys.getLastD "") (sLength py + 1)
                = sDrop (xs.getLastD "") (sLength px + 1) :=
              fun he => hrem he.symm
            rw [if_neg hrem', if_neg hrem]
    · have hdrop' : ¬ ys.dropLast = xs.dropLast := fun he => hdrop he.symm
      rw [if_neg hdrop', if_neg hdrop]
  · have hlen' : ¬ ys.length = xs.length := fun he => hlen he.symm
    rw [if_neg hlen', if_neg hlen]

lemma detectPrefixPattern_symm (a b : String) :
    detectPrefixPattern b a = detectPrefixPattern a b :=
  detectPrefixParts_symm (sSplitSlash a) (sSplitSlash b)

/-- C6: build pattern detection is order-independent.  For all main
and module field values, detecting with the two arguments swapped
returns the identical BuildPattern: the same side is classified CJS
and the same side ESM, with identical basePath and identifier, across
the directory, extension and prefix classifiers, including the
ambiguous plain js extension accepted on either side. -/
theorem C6_detect_build_pattern_symmetric :
    ∀ (mainField moduleField : Option String),
      detectBuildPattern mainField moduleField
        = detectBuildPattern moduleField mainField := by
  intro mf mof
  cases mf with
  | none => cases mof <;> rfl
  | some m =>
    cases mof with
    | none => rfl
    | some mo =>
      simp only [detectBuildPattern]
      by_cases h1 : (sIsEmpty m || sIsEmpty mo) = true
      · have h1' : (sIsEmpty mo || sIsEmpty m) = true := by
          rw [Bool.or_comm]
          exact h1
        rw [if_pos h1, if_pos h1']
      · have h1' : ¬ (sIsEmpty mo || sIsEmpty m) = true := by
          rw [Bool.or_comm]
          exact h1
        rw [if_neg h1, if_neg h1']
        by_cases h2 : normalizeRelativePath m = normalizeRelativePath mo
        · rw [if_pos h2, if_pos h2.symm]
        · have h2' : ¬ normalizeRelativePath mo = normalizeRelativePath m :=
            fun he => h2 he.symm
          rw [if_neg h2]
          conv_rhs => rw [if_neg h2']
          rw [detectDirectoryPattern_symm (normalizeRelativePath m)
              (normalizeRelativePath mo),
            detectExtensionPattern_symm (normalizeRelativePath m)
              (normalizeRelativePath mo),
            detectPrefixPattern_symm (normalizeRelativePath m)
              (normalizeRelativePath mo)]
